import Mathlib

/-!
Shallow embedding of the SMA-crossover backtest (src/sma_cross_1.py).

The strategy decision logic and the position-sizing formula come directly
from `SmaCross.next` in the source.  The indicator, crossover detector,
broker simulator, configuration validation and event loop are delegated by
the source to an external framework; following the specification's scoping
("the self-contained backtesting engine that a faithful reimplementation
must supply from scratch"), those components are modelled from the spec,
each marked `Modelled from the spec:` in its doc comment.

All monetary quantities and prices are rationals; Python's `int()`
truncation is embedded exactly (`pyInt`).
-/

namespace SmaCross

/-- Crossover signal, per spec §3: enumerated {NONE, CROSS_UP, CROSS_DOWN}. -/
inductive Signal
  | NONE
  | CROSS_UP
  | CROSS_DOWN
deriving DecidableEq, Repr

/-- Order side. -/
inductive Side
  | BUY
  | SELL
deriving DecidableEq, Repr

/-- Order: {side, size, price}, ephemeral within one bar (spec §3). -/
structure Order where
  side : Side
  size : Nat
  price : ℚ
deriving DecidableEq, Repr

/-- Python `int()` applied to a rational: truncation toward zero, as in
`size = int((equity * self.p.percent) / price)` (src line 31). -/
def pyInt (q : ℚ) : Int :=
  if 0 ≤ q then ⌊q⌋ else ⌈q⌉

/-- The position sizer of `SmaCross.next` (src lines 29-31):
`int((equity * percent) / price)`. -/
def sizerSize (equity price fraction : ℚ) : Int :=
  pyInt (equity * fraction / price)

/-- Modelled from the spec: the incremental SMA indicator state (spec §3
IndicatorState, §4.1); the source delegates it to `bt.ind.SMA`.  Holds the
window of the last at most `period` closing prices, oldest first. -/
structure IndState where
  period : Nat
  window : List ℚ
deriving DecidableEq, Repr

/-- Modelled from the spec: `observe(price) -> average | UNDEFINED`
(spec §4.1): append the price, evict the oldest when the window is full,
and return the arithmetic mean once `period` observations are held. -/
def IndState.observe (s : IndState) (p : ℚ) : IndState × Option ℚ :=
  let w0 := s.window ++ [p]
  let w := if s.period < w0.length then w0.tail else w0
  (⟨s.period, w⟩, if w.length = s.period then some (w.sum / (s.period : ℚ)) else none)

/-- Per-observation outputs of one SMA indicator fed a stream of closes. -/
def smaOutputs (st : IndState) : List ℚ → List (Option ℚ)
  | [] => []
  | p :: ps =>
    let r := st.observe p
    r.2 :: smaOutputs r.1 ps

/-- The last at most `N` elements of a list. -/
def lastWin (N : Nat) (l : List ℚ) : List ℚ :=
  l.drop (l.length - N)

/-- Modelled from the spec: the crossover detector's state, the previous
bar's sign of (fast − slow) (spec §3 Signal, §4.2); the source delegates it
to `bt.ind.CrossOver`. -/
structure CrossState where
  prevSign : Option Int
deriving DecidableEq, Repr

/-- Sign of a rational as an integer in {-1, 0, 1}. -/
def sign (x : ℚ) : Int :=
  if 0 < x then 1 else if x < 0 then -1 else 0

/-- Modelled from the spec: `observe(fast, slow) -> Signal` (spec §4.2):
while either input is UNDEFINED, return NONE and keep the stored sign; on
the first bar both are defined, record the sign and return NONE; afterwards
a flip from non-positive to positive is CROSS_UP and from non-negative to
negative is CROSS_DOWN. -/
def CrossState.observe (s : CrossState) (fv sv : Option ℚ) : CrossState × Signal :=
  match fv, sv with
  | some f, some sl =>
    let sg := sign (f - sl)
    match s.prevSign with
    | none => (⟨some sg⟩, Signal.NONE)
    | some p =>
      (⟨some sg⟩,
        if p ≤ 0 ∧ 0 < sg then Signal.CROSS_UP
        else if 0 ≤ p ∧ sg < 0 then Signal.CROSS_DOWN
        else Signal.NONE)
  | _, _ => (s, Signal.NONE)

/-- Position: {size ≥ 0, entry_price}; zero size means flat (spec §3). -/
structure Position where
  size : Nat
  entryPrice : ℚ
deriving DecidableEq, Repr

/-- PortfolioState: {cash, position, commission_rate} (spec §3), owned by
the broker simulator. -/
structure Portfolio where
  cash : ℚ
  pos : Position
  commissionRate : ℚ
deriving DecidableEq, Repr

/-- Errors surfaced by setup or by the broker (spec §7). -/
inductive RunError
  | CONFIG_ERROR
  | INSUFFICIENT_FUNDS
deriving DecidableEq, Repr

/-- TradeLogEntry: {side, size, price, resulting_cash} (spec §3). -/
structure TradeLogEntry where
  side : Side
  size : Nat
  price : ℚ
  resultingCash : ℚ
deriving DecidableEq, Repr

/-- Modelled from the spec: `value(price) -> equity = cash + size × price`
(spec §4.5); the source delegates it to `broker.getvalue()`. -/
def Portfolio.value (pf : Portfolio) (price : ℚ) : ℚ :=
  pf.cash + (pf.pos.size : ℚ) * price

/-- Modelled from the spec: `execute(order, price)` of the broker simulator
(spec §4.5); the source delegates order execution to the framework broker.
BUY requires cash ≥ cost + commission, else INSUFFICIENT_FUNDS; SELL adds
proceeds − commission and clears the position. -/
def Portfolio.execute (pf : Portfolio) (o : Order) :
    Except RunError (Portfolio × TradeLogEntry) :=
  match o.side with
  | Side.BUY =>
    let cost := (o.size : ℚ) * o.price
    let comm := cost * pf.commissionRate
    if cost + comm ≤ pf.cash then
      let c := pf.cash - (cost + comm)
      Except.ok ({ pf with cash := c, pos := ⟨o.size, o.price⟩ },
        ⟨Side.BUY, o.size, o.price, c⟩)
    else
      Except.error RunError.INSUFFICIENT_FUNDS
  | Side.SELL =>
    let proceeds := (o.size : ℚ) * o.price
    let comm := proceeds * pf.commissionRate
    let c := pf.cash + (proceeds - comm)
    Except.ok ({ pf with cash := c, pos := ⟨0, 0⟩ },
      ⟨Side.SELL, o.size, o.price, c⟩)

/-- The two strategy states; FLAT iff the position size is zero, as the
source tests `not self.position` / `self.position`. -/
inductive StratState
  | FLAT
  | LONG
deriving DecidableEq, Repr

/-- The strategy state read off the portfolio. -/
def stateOf (pf : Portfolio) : StratState :=
  if pf.pos.size = 0 then StratState.FLAT else StratState.LONG

/-- The per-bar decision of `SmaCross.next` (src lines 28-41): size from
current equity, buy the sized amount on CROSS_UP while flat when the size
is positive, sell the full position on CROSS_DOWN while long. -/
def stratNext (pf : Portfolio) (fraction : ℚ) (signal : Signal) (price : ℚ) :
    Option Order :=
  let equity := pf.value price
  let size := sizerSize equity price fraction
  if pf.pos.size = 0 ∧ signal = Signal.CROSS_UP then
    if 0 < size then some ⟨Side.BUY, size.toNat, price⟩ else none
  else if pf.pos.size ≠ 0 ∧ signal = Signal.CROSS_DOWN then
    some ⟨Side.SELL, pf.pos.size, price⟩
  else none

/-- Engine configuration (spec §6): fast/slow periods, target fraction,
starting cash, commission rate. -/
structure Config where
  pfast : Nat
  pslow : Nat
  fraction : ℚ
  cash : ℚ
  commission : ℚ
deriving DecidableEq, Repr

/-- The engine's per-bar state: the two indicators, the crossover detector
and the portfolio. -/
structure EngineState where
  fast : IndState
  slow : IndState
  cross : CrossState
  pf : Portfolio
deriving DecidableEq, Repr

/-- What one bar's processing produced: the signal, the emitted order (if
any), the executed trade (if any) and the post-trade equity. -/
structure BarResult where
  signal : Signal
  order : Option Order
  trade : Option TradeLogEntry
  equity : ℚ
deriving DecidableEq, Repr

/-- Modelled from the spec: one iteration of the event loop (spec §4.6);
the source delegates the loop to `cerebro.run()`.  Feed the close to both
indicators, obtain the signal, let the strategy decide, execute any order
at the close, record the post-trade equity. -/
def stepBar (cfg : Config) (st : EngineState) (close : ℚ) :
    Except RunError (EngineState × BarResult) :=
  let rf := st.fast.observe close
  let rs := st.slow.observe close
  let rc := st.cross.observe rf.2 rs.2
  match stratNext st.pf cfg.fraction rc.2 close with
  | none =>
    Except.ok (⟨rf.1, rs.1, rc.1, st.pf⟩, ⟨rc.2, none, none, st.pf.value close⟩)
  | some o =>
    match st.pf.execute o with
    | Except.error e => Except.error e
    | Except.ok pt =>
      Except.ok (⟨rf.1, rs.1, rc.1, pt.1⟩, ⟨rc.2, some o, some pt.2, pt.1.value close⟩)

/-- Modelled from the spec: the event loop over the bar sequence, one pass
in order (spec §4.6). -/
def runBars (cfg : Config) : EngineState → List ℚ → Except RunError (EngineState × List BarResult)
  | st, [] => Except.ok (st, [])
  | st, c :: cs =>
    match stepBar cfg st c with
    | Except.error e => Except.error e
    | Except.ok sr =>
      match runBars cfg sr.1 cs with
      | Except.error e => Except.error e
      | Except.ok frs => Except.ok (frs.1, sr.2 :: frs.2)

/-- The engine's initial state: empty indicator windows, no stored sign,
full starting cash and a flat position. -/
def initState (cfg : Config) : EngineState :=
  ⟨⟨cfg.pfast, []⟩, ⟨cfg.pslow, []⟩, ⟨none⟩, ⟨cfg.cash, ⟨0, 0⟩, cfg.commission⟩⟩

/-- Modelled from the spec: configuration validation at setup (spec §7
CONFIG_ERROR): fraction in (0, 1], positive periods, non-negative
commission. -/
def validConfig (cfg : Config) : Prop :=
  0 < cfg.fraction ∧ cfg.fraction ≤ 1 ∧ 0 < cfg.pfast ∧ 0 < cfg.pslow ∧
    0 ≤ cfg.commission

instance (cfg : Config) : Decidable (validConfig cfg) := by
  unfold validConfig
  infer_instance

/-- Modelled from the spec: the whole backtest — validate the
configuration before any bar is processed, then run the event loop. -/
def runBacktest (cfg : Config) (bars : List ℚ) :
    Except RunError (EngineState × List BarResult) :=
  if validConfig cfg then runBars cfg (initState cfg) bars
  else Except.error RunError.CONFIG_ERROR

/-- The trade log of a run: the executed trades, in bar order. -/
def tradeLog (rs : List BarResult) : List TradeLogEntry :=
  rs.filterMap (fun r => r.trade)

/-! ### Helper lemmas about the broker and the strategy decision -/

theorem execute_buy_ok {pf : Portfolio} {o : Order} {pt : Portfolio × TradeLogEntry}
    (hs : o.side = Side.BUY) (h : pf.execute o = Except.ok pt) :
    pt.1.cash = pf.cash - (o.size : ℚ) * o.price * (1 + pf.commissionRate) ∧
      pt.1.pos = ⟨o.size, o.price⟩ ∧ pt.1.commissionRate = pf.commissionRate := by
  obtain ⟨p1, t1⟩ := pt
  simp only [Portfolio.execute, hs] at h
  split_ifs at h with hg
  · rw [Except.ok.injEq, Prod.mk.injEq] at h
    obtain ⟨h1, h2⟩ := h
    subst h1
    refine ⟨?_, rfl, rfl⟩
    dsimp only
    ring

theorem execute_sell_ok {pf : Portfolio} {o : Order} {pt : Portfolio × TradeLogEntry}
    (hs : o.side = Side.SELL) (h : pf.execute o = Except.ok pt) :
    pt.1.cash = pf.cash + (o.size : ℚ) * o.price * (1 - pf.commissionRate) ∧
      pt.1.pos = ⟨0, 0⟩ ∧ pt.1.commissionRate = pf.commissionRate := by
  obtain ⟨p1, t1⟩ := pt
  simp only [Portfolio.execute, hs] at h
  rw [Except.ok.injEq, Prod.mk.injEq] at h
  obtain ⟨h1, h2⟩ := h
  subst h1
  refine ⟨?_, rfl, rfl⟩
  dsimp only
  ring

theorem execute_buy_guard {pf : Portfolio} {o : Order} (hs : o.side = Side.BUY)
    (hlt : pf.cash < (o.size : ℚ) * o.price * (1 + pf.commissionRate)) :
    pf.execute o = Except.error RunError.INSUFFICIENT_FUNDS := by
  have hng : ¬ ((o.size : ℚ) * o.price + (o.size : ℚ) * o.price * pf.commissionRate ≤ pf.cash) := by
    intro hle
    have : (o.size : ℚ) * o.price * (1 + pf.commissionRate) ≤ pf.cash := by
      calc (o.size : ℚ) * o.price * (1 + pf.commissionRate)
          = (o.size : ℚ) * o.price + (o.size : ℚ) * o.price * pf.commissionRate := by ring
        _ ≤ pf.cash := hle
    exact absurd hlt (not_lt.mpr this)
  simp only [Portfolio.execute, hs, if_neg hng]

theorem execute_sell_isOk {pf : Portfolio} {o : Order} (hs : o.side = Side.SELL) :
    ∃ pt, pf.execute o = Except.ok pt := by
  obtain ⟨side, size, price⟩ := o
  cases hs
  exact ⟨_, rfl⟩

theorem stratNext_eq_buy {pf : Portfolio} {f : ℚ} {sig : Signal} {price : ℚ} {o : Order}
    (h : stratNext pf f sig price = some o) (hs : o.side = Side.BUY) :
    pf.pos.size = 0 ∧ sig = Signal.CROSS_UP ∧
      0 < sizerSize (pf.value price) price f ∧
      o = ⟨Side.BUY, (sizerSize (pf.value price) price f).toNat, price⟩ := by
  simp only [stratNext] at h
  split_ifs at h with h1 h2 h3
  · exact ⟨h1.1, h1.2, h2, (Option.some_injective _ h).symm⟩
  · obtain rfl := Option.some_injective _ h
    simp at hs

theorem stratNext_eq_sell {pf : Portfolio} {f : ℚ} {sig : Signal} {price : ℚ} {o : Order}
    (h : stratNext pf f sig price = some o) (hs : o.side = Side.SELL) :
    pf.pos.size ≠ 0 ∧ sig = Signal.CROSS_DOWN ∧
      o = ⟨Side.SELL, pf.pos.size, price⟩ := by
  simp only [stratNext] at h
  split_ifs at h with h1 h2 h3
  · obtain rfl := Option.some_injective _ h
    simp at hs
  · exact ⟨h3.1, h3.2, (Option.some_injective _ h).symm⟩

theorem stratNext_none_of_zero_size {pf : Portfolio} {f : ℚ} {sig : Signal} {price : ℚ}
    (h0 : pf.pos.size = 0) (hsz : sizerSize (pf.value price) price f ≤ 0) :
    stratNext pf f sig price = none := by
  simp only [stratNext]
  split_ifs with h1 h2 h3
  · exact absurd h2 (not_lt.mpr hsz)
  · rfl
  · exact absurd h0 h3.1
  · rfl

theorem stratNext_none_of_other {pf : Portfolio} {f : ℚ} {sig : Signal} {price : ℚ}
    (h1 : ¬(pf.pos.size = 0 ∧ sig = Signal.CROSS_UP))
    (h2 : ¬(pf.pos.size ≠ 0 ∧ sig = Signal.CROSS_DOWN)) :
    stratNext pf f sig price = none := by
  simp only [stratNext, if_neg h1, if_neg h2]

theorem stepBar_ok_spec {cfg : Config} {st : EngineState} {close : ℚ}
    {sr : EngineState × BarResult} (h : stepBar cfg st close = Except.ok sr) :
    sr.2.signal = (st.cross.observe (st.fast.observe close).2 (st.slow.observe close).2).2 ∧
      sr.2.order = stratNext st.pf cfg.fraction sr.2.signal close ∧
      ((sr.2.order = none ∧ sr.1.pf = st.pf ∧ sr.2.trade = none) ∨
       (∃ o pt, sr.2.order = some o ∧ st.pf.execute o = Except.ok pt ∧
          sr.1.pf = pt.1 ∧ sr.2.trade = some pt.2)) ∧
      sr.1.fast = (st.fast.observe close).1 ∧
      sr.1.slow = (st.slow.observe close).1 ∧
      sr.1.cross = (st.cross.observe (st.fast.observe close).2 (st.slow.observe close).2).1 := by
  simp only [stepBar] at h
  rcases hord : stratNext st.pf cfg.fraction
      (st.cross.observe (st.fast.observe close).2 (st.slow.observe close).2).2 close with
    _ | o
  · rw [hord] at h
    obtain rfl := (Except.ok.injEq _ _).mp h
    exact ⟨rfl, hord.symm, Or.inl ⟨rfl, rfl, rfl⟩, rfl, rfl, rfl⟩
  · rw [hord] at h
    dsimp only at h
    rcases hex : st.pf.execute o with e | pt
    · rw [hex] at h
      cases h
    · rw [hex] at h
      obtain rfl := (Except.ok.injEq _ _).mp h
      exact ⟨rfl, hord.symm, Or.inr ⟨o, pt, rfl, hex, rfl, rfl⟩, rfl, rfl, rfl⟩

theorem stateOf_flat_iff {pf : Portfolio} :
    stateOf pf = StratState.FLAT ↔ pf.pos.size = 0 := by
  unfold stateOf
  split_ifs with h
  · simp [h]
  · simp [h]

theorem stateOf_long_iff {pf : Portfolio} :
    stateOf pf = StratState.LONG ↔ pf.pos.size ≠ 0 := by
  unfold stateOf
  split_ifs with h
  · simp [h]
  · simp [h]

/-! ### C1: the two-state strategy machine -/

/-- C1: per processed bar, a BUY is emitted only while FLAT on a CROSS_UP
with a positive computed size (and the machine moves to LONG); with a zero
size the machine stays FLAT with no order; a SELL is emitted only while
LONG on a CROSS_DOWN, for the full position, moving to FLAT; every other
(state, signal) pair emits no order and keeps the portfolio unchanged.  In
particular a BUY is never emitted while LONG, a SELL never while FLAT, and
since a BUY requires the single position to be empty, at most one position
is ever open. -/
theorem strategy_state_machine (cfg : Config) (st : EngineState) (close : ℚ)
    (sr : EngineState × BarResult) (h : stepBar cfg st close = Except.ok sr) :
    (∀ o, sr.2.order = some o → o.side = Side.BUY →
       stateOf st.pf = StratState.FLAT ∧ sr.2.signal = Signal.CROSS_UP ∧
       0 < sizerSize (st.pf.value close) close cfg.fraction ∧
       o.size = (sizerSize (st.pf.value close) close cfg.fraction).toNat ∧
       stateOf sr.1.pf = StratState.LONG) ∧
    (∀ o, sr.2.order = some o → o.side = Side.SELL →
       stateOf st.pf = StratState.LONG ∧ sr.2.signal = Signal.CROSS_DOWN ∧
       o.size = st.pf.pos.size ∧ stateOf sr.1.pf = StratState.FLAT) ∧
    (stateOf st.pf = StratState.FLAT → sr.2.signal = Signal.CROSS_UP →
       sizerSize (st.pf.value close) close cfg.fraction ≤ 0 →
       sr.2.order = none ∧ stateOf sr.1.pf = StratState.FLAT) ∧
    (¬(stateOf st.pf = StratState.FLAT ∧ sr.2.signal = Signal.CROSS_UP) →
     ¬(stateOf st.pf = StratState.LONG ∧ sr.2.signal = Signal.CROSS_DOWN) →
       sr.2.order = none ∧ sr.1.pf = st.pf) := by
  obtain ⟨hsig, hord, hcases, _⟩ := stepBar_ok_spec h
  refine ⟨?_, ?_, ?_, ?_⟩
  · intro o ho hside
    rw [ho] at hord
    obtain ⟨hpos0, hsigU, hsz, hoeq⟩ := stratNext_eq_buy hord.symm hside
    refine ⟨stateOf_flat_iff.mpr hpos0, hsigU, hsz, by rw [hoeq], ?_⟩
    rcases hcases with ⟨hnone, _, _⟩ | ⟨o', pt, ho', hex, hpf1, _⟩
    · rw [ho] at hnone
      cases hnone
    · rw [ho] at ho'
      obtain rfl := Option.some_injective _ ho'
      obtain ⟨_, hpos, _⟩ := execute_buy_ok hside hex
      apply stateOf_long_iff.mpr
      rw [hpf1, hpos]
      dsimp only
      rw [hoeq]
      dsimp only
      omega
  · intro o ho hside
    rw [ho] at hord
    obtain ⟨hposn, hsigD, hoeq⟩ := stratNext_eq_sell hord.symm hside
    refine ⟨stateOf_long_iff.mpr hposn, hsigD, by rw [hoeq], ?_⟩
    rcases hcases with ⟨hnone, _, _⟩ | ⟨o', pt, ho', hex, hpf1, _⟩
    · rw [ho] at hnone
      cases hnone
    · rw [ho] at ho'
      obtain rfl := Option.some_injective _ ho'
      obtain ⟨_, hpos, _⟩ := execute_sell_ok hside hex
      apply stateOf_flat_iff.mpr
      rw [hpf1, hpos]
  · intro hflat hsigU hsz
    have h0 := stateOf_flat_iff.mp hflat
    have hnone : sr.2.order = none := by
      rw [hord, hsigU]
      exact stratNext_none_of_zero_size h0 hsz
    rcases hcases with ⟨_, hpf, _⟩ | ⟨o', pt, ho', _, _, _⟩
    · refine ⟨hnone, ?_⟩
      rw [hpf]
      exact hflat
    · rw [hnone] at ho'
      cases ho'
  · intro hn1 hn2
    have hnone : sr.2.order = none := by
      rw [hord]
      refine stratNext_none_of_other ?_ ?_
      · rintro ⟨a, b⟩
        exact hn1 ⟨stateOf_flat_iff.mpr a, b⟩
      · rintro ⟨a, b⟩
        exact hn2 ⟨stateOf_long_iff.mpr a, b⟩
    rcases hcases with ⟨_, hpf, _⟩ | ⟨o', pt, ho', _, _, _⟩
    · exact ⟨hnone, hpf⟩
    · rw [hnone] at ho'
      cases ho'

/-- Witness for C1: a concrete FLAT + CROSS_UP bar that buys 50 shares at
price 20 and moves the machine to LONG. -/
theorem strategy_state_machine_witness :
    stateOf (⟨1000, ⟨0, 0⟩, 0⟩ : Portfolio) = StratState.FLAT ∧
      Signal.CROSS_UP = Signal.CROSS_UP ∧
      0 < sizerSize (Portfolio.value ⟨1000, ⟨0, 0⟩, 0⟩ 20) 20 1 ∧
      (⟨Side.BUY, 50, 20⟩ : Order).size =
        (sizerSize (Portfolio.value ⟨1000, ⟨0, 0⟩, 0⟩ 20) 20 1).toNat ∧
      stateOf (⟨0, ⟨50, 20⟩, 0⟩ : Portfolio) = StratState.LONG :=
  (strategy_state_machine ⟨1, 2, 1, 1000, 0⟩
      ⟨⟨1, [10]⟩, ⟨2, [10, 10]⟩, ⟨some 0⟩, ⟨1000, ⟨0, 0⟩, 0⟩⟩ 20
      (⟨⟨1, [20]⟩, ⟨2, [10, 20]⟩, ⟨some 1⟩, ⟨0, ⟨50, 20⟩, 0⟩⟩,
        ⟨Signal.CROSS_UP, some ⟨Side.BUY, 50, 20⟩, some ⟨Side.BUY, 50, 20, 0⟩, 1000⟩)
      (by
        norm_num [stepBar, IndState.observe, CrossState.observe, stratNext,
          Portfolio.execute, Portfolio.value, sizerSize, pyInt, sign]
        split_ifs with hg
        · simp only [show Int.toNat 50 = 50 from rfl]
          norm_num
        · exact absurd (by
            simp only [show Int.toNat 50 = 50 from rfl]
            norm_num) hg)).1
    ⟨Side.BUY, 50, 20⟩ rfl rfl

theorem stepBar_buy_signal {cfg : Config} {st : EngineState} {close : ℚ}
    {sr : EngineState × BarResult} (h : stepBar cfg st close = Except.ok sr) :
    (∀ o, sr.2.order = some o → o.side = Side.BUY →
       sr.2.signal = Signal.CROSS_UP) ∧
    (sr.2.signal ≠ Signal.CROSS_UP →
       ∀ o, sr.2.order = some o → o.side = Side.SELL) := by
  obtain ⟨_, hord, _, _⟩ := stepBar_ok_spec h
  constructor
  · intro o ho hside
    rw [ho] at hord
    exact (stratNext_eq_buy hord.symm hside).2.1
  · intro hne o ho
    rw [ho] at hord
    rcases hside : o.side with _ | _
    · exact absurd (stratNext_eq_buy hord.symm hside).2.1 hne
    · rfl

/-! ### C10: a skipped zero-size CROSS_UP is not retried -/

/-- C10: in every run, a BUY can be executed only on a bar whose signal is
CROSS_UP; on every bar whose signal is not CROSS_UP — in particular every
bar after a zero-size CROSS_UP was skipped and before the next CROSS_UP —
any executed order is a SELL, never a BUY, whatever the equity and price
on that bar would size to. -/
theorem buy_only_on_crossing_bar (cfg : Config) (st : EngineState)
    (bars : List ℚ) (frs : EngineState × List BarResult)
    (h : runBars cfg st bars = Except.ok frs) :
    ∀ r ∈ frs.2,
      (∀ o, r.order = some o → o.side = Side.BUY →
         r.signal = Signal.CROSS_UP) ∧
      (r.signal ≠ Signal.CROSS_UP →
         ∀ o, r.order = some o → o.side = Side.SELL) := by
  induction bars generalizing st frs with
  | nil =>
    simp only [runBars] at h
    obtain rfl := (Except.ok.injEq _ _).mp h
    intro r hr
    cases hr
  | cons c cs ih =>
    simp only [runBars] at h
    rcases hstep : stepBar cfg st c with e | sr
    · rw [hstep] at h
      cases h
    · rw [hstep] at h
      dsimp only at h
      rcases hrest : runBars cfg sr.1 cs with e | frs'
      · rw [hrest] at h
        cases h
      · rw [hrest] at h
        obtain rfl := (Except.ok.injEq _ _).mp h
        intro r hr
        rcases List.mem_cons.mp hr with rfl | hr'
        · exact stepBar_buy_signal hstep
        · exact ih sr.1 frs' hrest r hr'

theorem step1_eval :
    stepBar ⟨1, 2, 1, 1000, 0⟩ ⟨⟨1, []⟩, ⟨2, []⟩, ⟨none⟩, ⟨1000, ⟨0, 0⟩, 0⟩⟩ 10 =
      Except.ok (⟨⟨1, [10]⟩, ⟨2, [10]⟩, ⟨none⟩, ⟨1000, ⟨0, 0⟩, 0⟩⟩,
        ⟨Signal.NONE, none, none, 1000⟩) := by
  norm_num [stepBar, IndState.observe, CrossState.observe, stratNext,
    Portfolio.execute, Portfolio.value, sizerSize, pyInt, sign]
  simp

theorem step2_eval :
    stepBar ⟨1, 2, 1, 1000, 0⟩ ⟨⟨1, [10]⟩, ⟨2, [10]⟩, ⟨none⟩, ⟨1000, ⟨0, 0⟩, 0⟩⟩ 10 =
      Except.ok (⟨⟨1, [10]⟩, ⟨2, [10, 10]⟩, ⟨some 0⟩, ⟨1000, ⟨0, 0⟩, 0⟩⟩,
        ⟨Signal.NONE, none, none, 1000⟩) := by
  norm_num [stepBar, IndState.observe, CrossState.observe, stratNext,
    Portfolio.execute, Portfolio.value, sizerSize, pyInt, sign]
  simp

theorem step3_eval :
    stepBar ⟨1, 2, 1, 1000, 0⟩ ⟨⟨1, [10]⟩, ⟨2, [10, 10]⟩, ⟨some 0⟩, ⟨1000, ⟨0, 0⟩, 0⟩⟩ 20 =
      Except.ok (⟨⟨1, [20]⟩, ⟨2, [10, 20]⟩, ⟨some 1⟩, ⟨0, ⟨50, 20⟩, 0⟩⟩,
        ⟨Signal.CROSS_UP, some ⟨Side.BUY, 50, 20⟩, some ⟨Side.BUY, 50, 20, 0⟩, 1000⟩) := by
  norm_num [stepBar, IndState.observe, CrossState.observe, stratNext,
    Portfolio.execute, Portfolio.value, sizerSize, pyInt, sign]
  split_ifs with hg
  · simp only [show Int.toNat 50 = 50 from rfl]
    norm_num
  · exact absurd (by
      simp only [show Int.toNat 50 = 50 from rfl]
      norm_num) hg

/-- Witness for C10: in the concrete run over closes [10, 10, 20] the
third bar executes a BUY, and its signal is indeed CROSS_UP. -/
theorem buy_only_on_crossing_bar_witness :
    (⟨Signal.CROSS_UP, some ⟨Side.BUY, 50, 20⟩, some ⟨Side.BUY, 50, 20, 0⟩,
        1000⟩ : BarResult).signal = Signal.CROSS_UP :=
  ((buy_only_on_crossing_bar ⟨1, 2, 1, 1000, 0⟩
      ⟨⟨1, []⟩, ⟨2, []⟩, ⟨none⟩, ⟨1000, ⟨0, 0⟩, 0⟩⟩ [10, 10, 20]
      (⟨⟨1, [20]⟩, ⟨2, [10, 20]⟩, ⟨some 1⟩, ⟨0, ⟨50, 20⟩, 0⟩⟩,
        [⟨Signal.NONE, none, none, 1000⟩, ⟨Signal.NONE, none, none, 1000⟩,
          ⟨Signal.CROSS_UP, some ⟨Side.BUY, 50, 20⟩, some ⟨Side.BUY, 50, 20, 0⟩, 1000⟩])
      (by simp only [runBars, step1_eval, step2_eval, step3_eval]))
    ⟨Signal.CROSS_UP, some ⟨Side.BUY, 50, 20⟩, some ⟨Side.BUY, 50, 20, 0⟩, 1000⟩
    (by simp)).1
    ⟨Side.BUY, 50, 20⟩ rfl rfl

/-! ### C2: the position sizer -/

/-- C2: the position sizer is `floor(equity * fraction / price)` for every
equity ≥ 0, price > 0 and fraction in (0, 1]; concretely, for
equity = 100000, price = 333.34, fraction = 0.3 it returns 89, not 90. -/
theorem sizer_is_floor (e p f : ℚ) (he : 0 ≤ e) (hp : 0 < p)
    (hf0 : 0 < f) (hf1 : f ≤ 1) :
    sizerSize e p f = ⌊e * f / p⌋ ∧
      sizerSize 100000 (33334 / 100) (3 / 10) = 89 := by
  constructor
  · have hq : 0 ≤ e * f / p := div_nonneg (mul_nonneg he hf0.le) hp.le
    simp [sizerSize, pyInt, hq]
  · have hq : (100000 * (3 / 10) / (33334 / 100) : ℚ) = 1500000 / 16667 := by
      norm_num
    have h0 : (0 : ℚ) ≤ 1500000 / 16667 := by norm_num
    have hfl : ⌊(1500000 / 16667 : ℚ)⌋ = 89 := by
      rw [Int.floor_eq_iff]
      norm_num
    simp only [sizerSize, pyInt, hq, h0, if_true, if_pos h0, hfl]

/-- Witness for C2 at a concrete admissible input. -/
theorem sizer_is_floor_witness :
    (sizerSize 2 1 1 = ⌊(2 * 1 / 1 : ℚ)⌋ ∧
      sizerSize 100000 (33334 / 100) (3 / 10) = 89) :=
  sizer_is_floor 2 1 1 (by norm_num) (by norm_num) (by norm_num) (by norm_num)

/-! ### C3: the moving-average indicator -/

theorem observe_lastWin (N : Nat) (hN : 0 < N) (pre : List ℚ) (p : ℚ) :
    IndState.observe ⟨N, lastWin N pre⟩ p =
      (⟨N, lastWin N (pre ++ [p])⟩,
        if N ≤ pre.length + 1 then
          some ((lastWin N (pre ++ [p])).sum / (N : ℚ))
        else none) := by
  by_cases hc : pre.length + 1 ≤ N
  · have h0 : pre.length - N = 0 := by omega
    have h0' : (pre ++ [p]).length - N = 0 := by
      simp only [List.length_append, List.length_singleton]
      omega
    have hpre : lastWin N pre = pre := by
      unfold lastWin
      rw [h0]
      exact List.drop_zero _
    have hpost : lastWin N (pre ++ [p]) = pre ++ [p] := by
      unfold lastWin
      rw [h0']
      exact List.drop_zero _
    rw [hpre, hpost]
    simp only [IndState.observe]
    have hnlt : ¬ (N < (pre ++ [p]).length) := by
      simp only [List.length_append, List.length_singleton]
      omega
    rw [if_neg hnlt]
    by_cases he : (pre ++ [p]).length = N
    · rw [if_pos he, if_pos (by simp only [List.length_append,
        List.length_singleton] at he; omega)]
    · rw [if_neg he, if_neg (by
        simp only [List.length_append, List.length_singleton] at he ⊢
        omega)]
  · have hge : N ≤ pre.length := by omega
    have hlenw : (lastWin N pre).length = N := by
      simp only [lastWin, List.length_drop]
      omega
    have hne : lastWin N pre ≠ [] := by
      intro hnil
      rw [hnil] at hlenw
      simp at hlenw
      omega
    simp only [IndState.observe]
    have hlt : N < (lastWin N pre ++ [p]).length := by
      simp only [List.length_append, List.length_singleton, hlenw]
      omega
    rw [if_pos hlt]
    have htail : (lastWin N pre ++ [p]).tail = lastWin N (pre ++ [p]) := by
      rw [List.tail_append_of_ne_nil hne]
      simp only [lastWin, List.tail_drop, List.length_append,
        List.length_singleton]
      rw [List.drop_append_of_le_length (by omega)]
      rw [show pre.length - N + 1 = pre.length + 1 - N from by omega]
    rw [htail]
    have hlen2 : (lastWin N (pre ++ [p])).length = N := by
      simp only [lastWin, List.length_drop, List.length_append,
        List.length_singleton]
      omega
    rw [if_pos hlen2, if_pos (by omega)]

theorem smaOutputs_getElem (N : Nat) (hN : 0 < N) :
    ∀ (ps pre : List ℚ) (i : Nat), i < ps.length →
      (smaOutputs ⟨N, lastWin N pre⟩ ps)[i]? =
        some (if N ≤ pre.length + i + 1 then
          some ((lastWin N (pre ++ ps.take (i + 1))).sum / (N : ℚ))
        else none) := by
  intro ps
  induction ps with
  | nil =>
    intro pre i hi
    cases hi
  | cons p ps ih =>
    intro pre i hi
    rw [show smaOutputs ⟨N, lastWin N pre⟩ (p :: ps) =
        (IndState.observe ⟨N, lastWin N pre⟩ p).2 ::
          smaOutputs (IndState.observe ⟨N, lastWin N pre⟩ p).1 ps from rfl]
    rw [observe_lastWin N hN pre p]
    cases i with
    | zero =>
      simp only [List.getElem?_cons_zero, List.take_succ_cons, List.take_zero]
    | succ i =>
      simp only [List.getElem?_cons_succ]
      have hi' : i < ps.length := by
        simp only [List.length_cons] at hi
        omega
      rw [ih (pre ++ [p]) i hi']
      rw [show (pre ++ [p]) ++ ps.take (i + 1) = pre ++ (p :: ps).take (i + 1 + 1) from by
        rw [List.append_assoc]
        rfl]
      rw [show (pre ++ [p]).length = pre.length + 1 from by simp]
      rw [show pre.length + 1 + i + 1 = pre.length + (i + 1) + 1 from by omega]

/-- C3: for every positive period N and every close stream, the SMA output
is UNDEFINED on each of the first N−1 observations and, from the N-th
observation onward, is exactly the arithmetic mean of the last N observed
closes. -/
theorem sma_warmup_and_mean (N : Nat) (ps : List ℚ) (i : Nat) (hN : 0 < N)
    (hi : i < ps.length) :
    (i + 1 < N → (smaOutputs ⟨N, []⟩ ps)[i]? = some none) ∧
    (N ≤ i + 1 → (smaOutputs ⟨N, []⟩ ps)[i]? =
       some (some (((ps.take (i + 1)).drop (i + 1 - N)).sum / (N : ℚ)))) := by
  have h := smaOutputs_getElem N hN ps [] i hi
  rw [show lastWin N [] = [] from by simp [lastWin]] at h
  simp only [List.nil_append, List.length_nil, Nat.zero_add] at h
  have hwin : lastWin N (ps.take (i + 1)) =
      (ps.take (i + 1)).drop (i + 1 - N) := by
    unfold lastWin
    congr 1
    rw [List.length_take]
    omega
  constructor
  · intro hlt
    rw [h, if_neg (by omega)]
  · intro hge
    rw [h, if_pos (by omega), hwin]

/-- Witness for C3: period 2 over closes [1, 3]; the second observation is
the mean (1+3)/2 = 2 of the last two closes. -/
theorem sma_warmup_and_mean_witness :
    (smaOutputs ⟨2, []⟩ [1, 3])[1]? =
      some (some (((([1, 3] : List ℚ).take 2).drop 0).sum / (2 : ℚ))) :=
  (sma_warmup_and_mean 2 [1, 3] 1 (by norm_num) (by norm_num)).2 (by norm_num)

/-! ### C5: runs shorter than the slow period -/

theorem observe_undefined {s : IndState} {p : ℚ}
    (h : s.window.length + 1 < s.period) :
    s.observe p = (⟨s.period, s.window ++ [p]⟩, none) := by
  simp only [IndState.observe]
  rw [if_neg (by
    simp only [List.length_append, List.length_singleton]
    omega)]
  rw [if_neg (by
    simp only [List.length_append, List.length_singleton]
    omega)]

theorem cross_observe_none_right {s : CrossState} {fv : Option ℚ} :
    s.observe fv none = (s, Signal.NONE) := by
  rcases fv with _ | f <;> rfl

theorem stepBar_no_slow {cfg : Config} {st : EngineState} {close : ℚ}
    (hs : (st.slow.observe close).2 = none) :
    stepBar cfg st close = Except.ok
      (⟨(st.fast.observe close).1, (st.slow.observe close).1, st.cross, st.pf⟩,
        ⟨Signal.NONE, none, none, st.pf.value close⟩) := by
  simp only [stepBar]
  have hc : st.cross.observe (st.fast.observe close).2 (st.slow.observe close).2 =
      (st.cross, Signal.NONE) := by
    rw [hs]
    exact cross_observe_none_right
  rw [hc]
  have hn : stratNext st.pf cfg.fraction Signal.NONE close = none :=
    stratNext_none_of_other (by simp) (by simp)
  rw [hn]

theorem runBars_warmup (cfg : Config) :
    ∀ (bars : List ℚ) (st : EngineState),
      st.slow.period = cfg.pslow →
      st.slow.window.length + bars.length < cfg.pslow →
      ∃ frs, runBars cfg st bars = Except.ok frs ∧
        frs.1.pf = st.pf ∧ tradeLog frs.2 = [] := by
  intro bars
  induction bars with
  | nil =>
    intro st hper hlen
    exact ⟨(st, []), rfl, rfl, rfl⟩
  | cons c cs ih =>
    intro st hper hlen
    simp only [List.length_cons] at hlen
    have hobs : st.slow.observe c = (⟨st.slow.period, st.slow.window ++ [c]⟩, none) :=
      observe_undefined (by omega)
    have hs : (st.slow.observe c).2 = none := by rw [hobs]
    obtain ⟨frs, hrun, hpf, hlog⟩ :=
      ih ⟨(st.fast.observe c).1, (st.slow.observe c).1, st.cross, st.pf⟩
        (by rw [hobs, hper]) (by
          rw [hobs]
          simp only [List.length_append, List.length_singleton]
          omega)
    refine ⟨(frs.1, (⟨Signal.NONE, none, none, st.pf.value c⟩ : BarResult) :: frs.2),
      ?_, hpf, ?_⟩
    · simp only [runBars]
      rw [stepBar_no_slow hs]
      dsimp only
      rw [hrun]
    · simp only [tradeLog, List.filterMap_cons]
      exact hlog

/-- C5: for every valid configuration and every bar sequence with strictly
fewer bars than the slow period, the backtest completes without error, the
trade log is empty, the cash and position are untouched and the final
equity equals the starting cash exactly. -/
theorem insufficient_data_run (cfg : Config) (bars : List ℚ)
    (hv : validConfig cfg) (hlen : bars.length < cfg.pslow) :
    ∃ frs, runBacktest cfg bars = Except.ok frs ∧ tradeLog frs.2 = [] ∧
      frs.1.pf.cash = cfg.cash ∧ frs.1.pf.pos.size = 0 ∧
      ∀ p, frs.1.pf.value p = cfg.cash := by
  obtain ⟨frs, hrun, hpf, hlog⟩ :=
    runBars_warmup cfg bars (initState cfg) rfl (by
      simp only [initState, List.length_nil]
      omega)
  refine ⟨frs, ?_, hlog, ?_, ?_, ?_⟩
  · rw [runBacktest, if_pos hv]
    exact hrun
  · rw [hpf]
    rfl
  · rw [hpf]
    rfl
  · intro p
    rw [Portfolio.value, hpf]
    simp [initState]

/-- Witness for C5: 30-bar slow period fed a single bar keeps the full
starting cash and an empty trade log. -/
theorem insufficient_data_run_witness :
    ∃ frs, runBacktest ⟨10, 30, 3 / 10, 100000, 1 / 1000⟩ [5] = Except.ok frs ∧
      tradeLog frs.2 = [] ∧ frs.1.pf.cash = 100000 ∧ frs.1.pf.pos.size = 0 ∧
      ∀ p, frs.1.pf.value p = 100000 :=
  insufficient_data_run ⟨10, 30, 3 / 10, 100000, 1 / 1000⟩ [5]
    (by norm_num [validConfig]) (by norm_num)

/-! ### C7: configuration errors are rejected at setup -/

/-- C7: a fraction outside (0, 1], a zero (non-positive) period, or a
negative commission rate makes the backtest abort with CONFIG_ERROR for
every bar sequence — before any bar is processed, so the bad value never
surfaces at trade time. -/
theorem config_error_at_setup (cfg : Config) (bars : List ℚ)
    (h : ¬(0 < cfg.fraction ∧ cfg.fraction ≤ 1) ∨ cfg.pfast = 0 ∨
      cfg.pslow = 0 ∨ cfg.commission < 0) :
    runBacktest cfg bars = Except.error RunError.CONFIG_ERROR := by
  rw [runBacktest, if_neg]
  intro hv
  obtain ⟨h1, h2, h3, h4, h5⟩ := hv
  rcases h with h | h | h | h
  · exact h ⟨h1, h2⟩
  · omega
  · omega
  · exact absurd h5 (not_le.mpr h)

/-- Witness for C7: a target fraction of 2 is rejected regardless of the
supplied bars. -/
theorem config_error_at_setup_witness :
    runBacktest ⟨10, 30, 2, 100000, 1 / 1000⟩ [1, 2, 3] =
      Except.error RunError.CONFIG_ERROR :=
  config_error_at_setup ⟨10, 30, 2, 100000, 1 / 1000⟩ [1, 2, 3]
    (Or.inl (by norm_num))

/-! ### C9: determinism of replay -/

/-- C9: the backtest is a pure function of the configuration and the bar
sequence: two runs on the same inputs return the same result, hence
identical trade logs and identical equity curves. -/
theorem deterministic_replay (cfg cfg2 : Config) (bars bars2 : List ℚ)
    (hc : cfg = cfg2) (hb : bars = bars2) :
    runBacktest cfg bars = runBacktest cfg2 bars2 ∧
      (∀ frs frs2, runBacktest cfg bars = Except.ok frs →
         runBacktest cfg2 bars2 = Except.ok frs2 →
         tradeLog frs.2 = tradeLog frs2.2 ∧
           frs.2.map (fun r => r.equity) = frs2.2.map (fun r => r.equity)) := by
  subst hc
  subst hb
  refine ⟨rfl, fun frs frs2 h1 h2 => ?_⟩
  rw [h1] at h2
  obtain rfl := (Except.ok.injEq _ _).mp h2
  exact ⟨rfl, rfl⟩

/-- Witness for C9: two replays of a concrete run agree. -/
theorem deterministic_replay_witness :
    runBacktest ⟨1, 2, 1, 1000, 0⟩ [] = runBacktest ⟨1, 2, 1, 1000, 0⟩ [] ∧
      (tradeLog [] = tradeLog [] ∧
        ([] : List BarResult).map (fun r => r.equity) =
          ([] : List BarResult).map (fun r => r.equity)) :=
  ⟨(deterministic_replay ⟨1, 2, 1, 1000, 0⟩ ⟨1, 2, 1, 1000, 0⟩ [] [] rfl rfl).1,
    (deterministic_replay ⟨1, 2, 1, 1000, 0⟩ ⟨1, 2, 1, 1000, 0⟩ [] [] rfl rfl).2
      (initState ⟨1, 2, 1, 1000, 0⟩, []) (initState ⟨1, 2, 1, 1000, 0⟩, [])
      (by
        rw [runBacktest,
          if_pos (show validConfig ⟨1, 2, 1, 1000, 0⟩ from by norm_num [validConfig])]
        rfl)
      (by
        rw [runBacktest,
          if_pos (show validConfig ⟨1, 2, 1, 1000, 0⟩ from by norm_num [validConfig])]
        rfl)⟩

/-! ### C8: the INSUFFICIENT_FUNDS guard -/

theorem execute_buy_le {pf : Portfolio} {o : Order} (hs : o.side = Side.BUY)
    (hle : (o.size : ℚ) * o.price + (o.size : ℚ) * o.price * pf.commissionRate ≤
      pf.cash) :
    pf.execute o = Except.ok
      (⟨pf.cash - ((o.size : ℚ) * o.price + (o.size : ℚ) * o.price * pf.commissionRate),
          ⟨o.size, o.price⟩, pf.commissionRate⟩,
        ⟨Side.BUY, o.size, o.price,
          pf.cash - ((o.size : ℚ) * o.price + (o.size : ℚ) * o.price * pf.commissionRate)⟩) := by
  simp only [Portfolio.execute, hs, if_pos hle]

theorem execute_sell_run {pf : Portfolio} {o : Order} (hs : o.side = Side.SELL) :
    pf.execute o = Except.ok
      (⟨pf.cash + ((o.size : ℚ) * o.price - (o.size : ℚ) * o.price * pf.commissionRate),
          ⟨0, 0⟩, pf.commissionRate⟩,
        ⟨Side.SELL, o.size, o.price,
          pf.cash + ((o.size : ℚ) * o.price - (o.size : ℚ) * o.price * pf.commissionRate)⟩) := by
  simp only [Portfolio.execute, hs]

theorem stepBar_solvent {cfg : Config} {st : EngineState} {close : ℚ}
    (hc : 0 < close)
    (hcomm : st.pf.commissionRate = cfg.commission)
    (hcash : 0 ≤ st.pf.cash)
    (hr0 : 0 ≤ cfg.commission) (hr1 : cfg.commission < 1)
    (hf0 : 0 < cfg.fraction) (hfr : cfg.fraction * (1 + cfg.commission) ≤ 1) :
    ∃ sr, stepBar cfg st close = Except.ok sr ∧
      sr.1.pf.commissionRate = cfg.commission ∧ 0 ≤ sr.1.pf.cash := by
  simp only [stepBar]
  rcases hord : stratNext st.pf cfg.fraction
      (st.cross.observe (st.fast.observe close).2 (st.slow.observe close).2).2 close with
    _ | o
  · exact ⟨_, rfl, hcomm, hcash⟩
  · dsimp only
    rcases hside : o.side with _ | _
    · obtain ⟨hpos0, _, _, hoeq⟩ := stratNext_eq_buy hord hside
      have hE : st.pf.value close = st.pf.cash := by
        rw [Portfolio.value, hpos0]
        simp
      have hq0 : 0 ≤ st.pf.value close * cfg.fraction / close := by
        rw [hE]
        exact div_nonneg (mul_nonneg hcash hf0.le) hc.le
      have hsizer : sizerSize (st.pf.value close) close cfg.fraction =
          ⌊st.pf.value close * cfg.fraction / close⌋ := by
        rw [sizerSize, pyInt, if_pos hq0]
      have hs0 : (0 : ℤ) ≤ ⌊st.pf.value close * cfg.fraction / close⌋ :=
        Int.floor_nonneg.mpr hq0
      have hsize : (o.size : ℚ) = (⌊st.pf.value close * cfg.fraction / close⌋ : ℚ) := by
        rw [hoeq]
        dsimp only
        rw [hsizer]
        exact_mod_cast Int.toNat_of_nonneg hs0
      have hprice : o.price = close := by rw [hoeq]
      have hcost : (o.size : ℚ) * close ≤ st.pf.cash * cfg.fraction := by
        rw [hsize]
        have h1 : (⌊st.pf.value close * cfg.fraction / close⌋ : ℚ) * close ≤
            st.pf.value close * cfg.fraction / close * close :=
          mul_le_mul_of_nonneg_right (Int.floor_le _) hc.le
        have h2 : st.pf.value close * cfg.fraction / close * close =
            st.pf.cash * cfg.fraction := by
          rw [hE]
          have hne : close ≠ 0 := ne_of_gt hc
          field_simp
        rw [h2] at h1
        exact h1
      have hguard : (o.size : ℚ) * o.price +
          (o.size : ℚ) * o.price * st.pf.commissionRate ≤ st.pf.cash := by
        rw [hprice, hcomm]
        have h1 : (o.size : ℚ) * close * (1 + cfg.commission) ≤
            st.pf.cash * cfg.fraction * (1 + cfg.commission) :=
          mul_le_mul_of_nonneg_right hcost (by linarith)
        have h2 : st.pf.cash * cfg.fraction * (1 + cfg.commission) ≤ st.pf.cash := by
          calc st.pf.cash * cfg.fraction * (1 + cfg.commission)
              = st.pf.cash * (cfg.fraction * (1 + cfg.commission)) := by ring
            _ ≤ st.pf.cash * 1 := mul_le_mul_of_nonneg_left hfr hcash
            _ = st.pf.cash := mul_one _
        calc (o.size : ℚ) * close + (o.size : ℚ) * close * cfg.commission
            = (o.size : ℚ) * close * (1 + cfg.commission) := by ring
          _ ≤ st.pf.cash * cfg.fraction * (1 + cfg.commission) := h1
          _ ≤ st.pf.cash := h2
      rw [execute_buy_le hside hguard]
      exact ⟨_, rfl, hcomm, sub_nonneg.mpr hguard⟩
    · obtain ⟨_, _, hoeq⟩ := stratNext_eq_sell hord hside
      rw [execute_sell_run hside]
      have hprice : o.price = close := by rw [hoeq]
      have hnn : 0 ≤ (o.size : ℚ) * o.price -
          (o.size : ℚ) * o.price * st.pf.commissionRate := by
        rw [hprice, hcomm]
        have h0 : 0 ≤ (o.size : ℚ) * close := mul_nonneg (Nat.cast_nonneg _) hc.le
        calc (0 : ℚ) = (o.size : ℚ) * close * 0 := by ring
          _ ≤ (o.size : ℚ) * close * (1 - cfg.commission) := by
              apply mul_le_mul_of_nonneg_left _ h0
              linarith
          _ = (o.size : ℚ) * close - (o.size : ℚ) * close * cfg.commission := by ring
      refine ⟨_, rfl, hcomm, ?_⟩
      show 0 ≤ st.pf.cash + ((o.size : ℚ) * o.price -
        (o.size : ℚ) * o.price * st.pf.commissionRate)
      linarith

theorem runBars_solvent (cfg : Config) (hr0 : 0 ≤ cfg.commission)
    (hr1 : cfg.commission < 1)
    (hf0 : 0 < cfg.fraction) (hfr : cfg.fraction * (1 + cfg.commission) ≤ 1) :
    ∀ (bars : List ℚ) (st : EngineState),
      st.pf.commissionRate = cfg.commission → 0 ≤ st.pf.cash →
      (∀ c ∈ bars, 0 < c) →
      ∃ frs, runBars cfg st bars = Except.ok frs := by
  intro bars
  induction bars with
  | nil =>
    intro st h1 h2 h3
    exact ⟨(st, []), rfl⟩
  | cons c cs ih =>
    intro st h1 h2 h3
    obtain ⟨sr, hstep, hc1, hc2⟩ :=
      stepBar_solvent (h3 c (by simp)) h1 h2 hr0 hr1 hf0 hfr
    obtain ⟨frs, hrest⟩ := ih sr.1 hc1 hc2 (fun x hx => h3 x (by simp [hx]))
    refine ⟨(frs.1, sr.2 :: frs.2), ?_⟩
    simp only [runBars]
    rw [hstep]
    dsimp only
    rw [hrest]

theorem step1c_eval :
    stepBar ⟨1, 2, 1, 1000, 1 / 1000⟩
        ⟨⟨1, []⟩, ⟨2, []⟩, ⟨none⟩, ⟨1000, ⟨0, 0⟩, 1 / 1000⟩⟩ 10 =
      Except.ok (⟨⟨1, [10]⟩, ⟨2, [10]⟩, ⟨none⟩, ⟨1000, ⟨0, 0⟩, 1 / 1000⟩⟩,
        ⟨Signal.NONE, none, none, 1000⟩) := by
  norm_num [stepBar, IndState.observe, CrossState.observe, stratNext,
    Portfolio.execute, Portfolio.value, sizerSize, pyInt, sign]
  simp

theorem step2c_eval :
    stepBar ⟨1, 2, 1, 1000, 1 / 1000⟩
        ⟨⟨1, [10]⟩, ⟨2, [10]⟩, ⟨none⟩, ⟨1000, ⟨0, 0⟩, 1 / 1000⟩⟩ 10 =
      Except.ok (⟨⟨1, [10]⟩, ⟨2, [10, 10]⟩, ⟨some 0⟩, ⟨1000, ⟨0, 0⟩, 1 / 1000⟩⟩,
        ⟨Signal.NONE, none, none, 1000⟩) := by
  norm_num [stepBar, IndState.observe, CrossState.observe, stratNext,
    Portfolio.execute, Portfolio.value, sizerSize, pyInt, sign]
  simp

theorem step3c_eval :
    stepBar ⟨1, 2, 1, 1000, 1 / 1000⟩
        ⟨⟨1, [10]⟩, ⟨2, [10, 10]⟩, ⟨some 0⟩, ⟨1000, ⟨0, 0⟩, 1 / 1000⟩⟩ 20 =
      Except.error RunError.INSUFFICIENT_FUNDS := by
  norm_num [stepBar, IndState.observe, CrossState.observe, stratNext,
    Portfolio.execute, Portfolio.value, sizerSize, pyInt, sign]
  split_ifs with hg
  · exact absurd hg (by
      simp only [show Int.toNat 50 = 50 from rfl]
      norm_num)
  · rfl

/-- C8 counterexample: with the in-range configuration fraction = 1,
commission = 0.001 and closes [10, 10, 20], the CROSS_UP bar sizes a BUY of
50 shares at 20 whose cost plus commission is 1001 > 1000 = cash, so the
run aborts with INSUFFICIENT_FUNDS: the guard is reachable under the
strategy's sizing formula. -/
theorem insufficient_funds_reachable :
    validConfig ⟨1, 2, 1, 1000, 1 / 1000⟩ ∧
      runBacktest ⟨1, 2, 1, 1000, 1 / 1000⟩ [10, 10, 20] =
        Except.error RunError.INSUFFICIENT_FUNDS := by
  constructor
  · norm_num [validConfig]
  · rw [runBacktest,
      if_pos (show validConfig ⟨1, 2, 1, 1000, 1 / 1000⟩ from by
        norm_num [validConfig])]
    simp only [initState, runBars, step1c_eval, step2c_eval, step3c_eval]

/-- C8 (amended): the broker rejects — loudly, with INSUFFICIENT_FUNDS and
no clamping — any BUY whose cost plus commission exceeds the available
cash; and the failure branch is unreachable under the strategy's sizing
formula whenever fraction · (1 + commission) ≤ 1 (in particular for zero
commission), for every positively-priced bar sequence; it is reachable
otherwise, as the counterexample shows. -/
theorem insufficient_funds_guarded :
    (∀ (pf : Portfolio) (o : Order), o.side = Side.BUY →
       pf.cash < (o.size : ℚ) * o.price * (1 + pf.commissionRate) →
       pf.execute o = Except.error RunError.INSUFFICIENT_FUNDS) ∧
    (∀ (cfg : Config) (bars : List ℚ), validConfig cfg →
       cfg.commission < 1 → cfg.fraction * (1 + cfg.commission) ≤ 1 →
       0 ≤ cfg.cash → (∀ c ∈ bars, 0 < c) →
       ∃ frs, runBacktest cfg bars = Except.ok frs) := by
  refine ⟨fun pf o hs hlt => execute_buy_guard hs hlt,
    fun cfg bars hv hr1 hfr hc0 hpos => ?_⟩
  obtain ⟨h1, h2, h3, h4, h5⟩ := hv
  obtain ⟨frs, h⟩ := runBars_solvent cfg h5 hr1 h1 hfr bars (initState cfg) rfl hc0 hpos
  refine ⟨frs, ?_⟩
  rw [runBacktest, if_pos (show validConfig cfg from ⟨h1, h2, h3, h4, h5⟩)]
  exact h

/-- Witness for the amended C8: a concrete underfunded BUY is rejected
with INSUFFICIENT_FUNDS, and a concrete half-fraction zero-commission run
completes without error. -/
theorem insufficient_funds_guarded_witness :
    Portfolio.execute ⟨5, ⟨0, 0⟩, 0⟩ ⟨Side.BUY, 1, 10⟩ =
        Except.error RunError.INSUFFICIENT_FUNDS ∧
      ∃ frs, runBacktest ⟨1, 2, 1 / 2, 1000, 0⟩ [10] = Except.ok frs :=
  ⟨insufficient_funds_guarded.1 ⟨5, ⟨0, 0⟩, 0⟩ ⟨Side.BUY, 1, 10⟩ rfl (by norm_num),
    insufficient_funds_guarded.2 ⟨1, 2, 1 / 2, 1000, 0⟩ [10]
      (by norm_num [validConfig]) (by norm_num) (by norm_num) (by norm_num)
      (by
        intro c hc
        rw [List.mem_singleton] at hc
        rw [hc]
        norm_num)⟩

/-! ### C4: the crossover detector -/

/-- C4: CROSS_UP is returned only when the stored previous sign of
(fast − slow) was ≤ 0 and the current sign is > 0, CROSS_DOWN only in the
mirror case; an UNDEFINED input yields NONE with the stored sign unchanged,
and a tie fast = slow never by itself yields CROSS_UP. -/
theorem crossover_sign_flips (s : CrossState) (fv sv : Option ℚ) :
    (∀ f sl, fv = some f → sv = some sl →
       (((s.observe fv sv).2 = Signal.CROSS_UP →
           ∃ p, s.prevSign = some p ∧ p ≤ 0 ∧ 0 < sign (f - sl)) ∧
        ((s.observe fv sv).2 = Signal.CROSS_DOWN →
           ∃ p, s.prevSign = some p ∧ 0 ≤ p ∧ sign (f - sl) < 0) ∧
        (f = sl → (s.observe fv sv).2 ≠ Signal.CROSS_UP))) ∧
    (fv = none ∨ sv = none → s.observe fv sv = (s, Signal.NONE)) := by
  obtain ⟨ps⟩ := s
  constructor
  · rintro f sl rfl rfl
    cases ps with
    | none =>
      refine ⟨?_, ?_, ?_⟩ <;> simp [CrossState.observe]
    | some p =>
      refine ⟨?_, ?_, ?_⟩
      · intro h
        simp only [CrossState.observe] at h
        split_ifs at h with h1 h2
        · exact ⟨p, rfl, h1.1, h1.2⟩
      · intro h
        simp only [CrossState.observe] at h
        split_ifs at h with h1 h2
        · exact ⟨p, rfl, h2.1, h2.2⟩
      · intro heq
        simp only [CrossState.observe, heq, sub_self]
        rw [show sign (0 : ℚ) = 0 from by simp [sign]]
        split_ifs with h1 h2
        · exact absurd h1.2 (lt_irrefl 0)
        · exact absurd h2.2 (lt_irrefl 0)
        · simp
  · rintro (rfl | rfl)
    · simp [CrossState.observe]
    · cases fv <;> simp [CrossState.observe]

/-- Witness for C4: a zero-to-positive flip reports CROSS_UP only with the
recorded non-positive sign, and an undefined slow input is a NONE no-op. -/
theorem crossover_sign_flips_witness :
    (∃ p, (⟨some 0⟩ : CrossState).prevSign = some p ∧ p ≤ 0 ∧
        0 < sign ((2 : ℚ) - 1)) ∧
      CrossState.observe ⟨some 0⟩ (some 2) none = (⟨some 0⟩, Signal.NONE) :=
  ⟨((crossover_sign_flips ⟨some 0⟩ (some 2) (some 1)).1 2 1 rfl rfl).1
      (by norm_num [CrossState.observe, sign]),
    (crossover_sign_flips ⟨some 0⟩ (some 2) none).2 (Or.inr rfl)⟩

/-! ### C6: commission accounting -/

/-- C6: a BUY of size s at price p with rate r decreases cash by exactly
s·p·(1+r), a SELL of size s at price p₂ increases cash by exactly
s·p₂·(1−r), and a bar that executes no order leaves the portfolio — in
particular its cash — unchanged. -/
theorem commission_accounting :
    (∀ (pf : Portfolio) (o : Order) (pt : Portfolio × TradeLogEntry),
       o.side = Side.BUY → pf.execute o = Except.ok pt →
       pt.1.cash = pf.cash - (o.size : ℚ) * o.price * (1 + pf.commissionRate)) ∧
    (∀ (pf : Portfolio) (o : Order) (pt : Portfolio × TradeLogEntry),
       o.side = Side.SELL → pf.execute o = Except.ok pt →
       pt.1.cash = pf.cash + (o.size : ℚ) * o.price * (1 - pf.commissionRate)) ∧
    (∀ (cfg : Config) (st : EngineState) (close : ℚ)
       (sr : EngineState × BarResult),
       stepBar cfg st close = Except.ok sr → sr.2.order = none →
       sr.1.pf = st.pf) := by
  refine ⟨fun pf o pt hs h => (execute_buy_ok hs h).1,
    fun pf o pt hs h => (execute_sell_ok hs h).1,
    fun cfg st close sr h ho => ?_⟩
  simp only [stepBar] at h
  rcases hord : stratNext st.pf cfg.fraction
      (st.cross.observe (st.fast.observe close).2 (st.slow.observe close).2).2 close with
    _ | o
  · rw [hord] at h
    obtain rfl := (Except.ok.injEq _ _).mp h
    rfl
  · rw [hord] at h
    dsimp only at h
    rcases hex : st.pf.execute o with e | pt
    · rw [hex] at h
      cases h
    · rw [hex] at h
      obtain rfl := (Except.ok.injEq _ _).mp h
      simp at ho

/-- Witness for C6: one concrete BUY, one concrete SELL, one concrete
order-free bar. -/
theorem commission_accounting_witness :
    ((⟨90, ⟨1, 10⟩, 0⟩ : Portfolio).cash =
        (100 : ℚ) - ((1 : ℕ) : ℚ) * 10 * (1 + 0) ∧
      (⟨105, ⟨0, 0⟩, 0⟩ : Portfolio).cash =
        (100 : ℚ) + ((1 : ℕ) : ℚ) * 5 * (1 - 0)) := by
  constructor
  · exact commission_accounting.1 ⟨100, ⟨0, 0⟩, 0⟩ ⟨Side.BUY, 1, 10⟩
      (⟨90, ⟨1, 10⟩, 0⟩, ⟨Side.BUY, 1, 10, 90⟩) rfl
      (by norm_num [Portfolio.execute])
  · exact commission_accounting.2.1 ⟨100, ⟨1, 5⟩, 0⟩ ⟨Side.SELL, 1, 5⟩
      (⟨105, ⟨0, 0⟩, 0⟩, ⟨Side.SELL, 1, 5, 105⟩) rfl
      (by norm_num [Portfolio.execute])

end SmaCross
